import Mathlib

/-!
Verification development for the mop terminal dashboard core:
the single-line ticker editor (line_editor.go) and the Yahoo quote
fetch/decode pipeline (yahoo_market.go).

Modelling conventions:
* Go strings are modelled as `List Char` (exact for the ASCII data the
  claims exercise); `len` is `List.length`.
* The Go `int` cursor is modelled as `Int`, so the lower-bound invariant
  is a real proof obligation rather than a typing artefact.
* Terminal side effects (the Screen capability and termbox calls) are
  externalized as an explicit trace of `ScreenOp` values emitted by each
  operation, in source order; the deferred `termbox.Flush()` in `Handle`
  appends a trailing `flush` op.
* float64 payloads from the JSON body are modelled by an abstract integer
  carrier `Float64`: no claim under verification depends on floating-point
  arithmetic, only on how decoded values are routed into slots.
-/

namespace Mop

/-- One Screen/termbox side effect, in the order the code emits them. -/
inductive ScreenOp where
  | drawLine (col row : Int) (text : List Char)
  | clearLine (col row : Int)
  | setCursor (col row : Int)
  | hideCursor
  | drawQuotes (tickers : List (List Char))
  | flush
  deriving DecidableEq

/-- Modelled from the spec: the Quotes capability owns the ordered,
duplicate-free ticker list (`quotes.profile.Tickers`); its Go source
(quotes.go / profile.go) is not among the provided files. -/
structure Quotes where
  Tickers : List (List Char)
  deriving DecidableEq

/-- Modelled from the spec: `AddTickers` appends symbols not already
present, preserving input order, and returns how many were actually
added. -/
def AddTickers (q : Quotes) (tickers : List (List Char)) : Nat × Quotes :=
  let final := tickers.foldl (fun acc t => if t ∈ acc then acc else acc ++ [t]) q.Tickers
  (final.length - q.Tickers.length, ⟨final⟩)

/-- Modelled from the spec: `RemoveTickers` removes matching entries,
preserving the relative order of survivors, and returns the count
actually removed. -/
def RemoveTickers (q : Quotes) (tickers : List (List Char)) : Nat × Quotes :=
  let remaining := q.Tickers.filter (fun t => decide (t ∉ tickers))
  (q.Tickers.length - remaining.length, ⟨remaining⟩)

/-- The LineEditor state (line_editor.go, lines 13-20).  The `screen`
pointer is externalized as the `ScreenOp` trace; the `quotes` pointer is
inlined as a field so that `execute` can mutate it. -/
structure LineEditor where
  command : Char
  prompt : List Char
  cursor : Int
  input : List Char
  quotes : Quotes
  deriving DecidableEq

/-- line_editor.go lines 31-43: `Prompt` recognizes the two commands,
stores the prompt text and command, draws the prompt and places the
terminal cursor right after it. -/
def Prompt (self : LineEditor) (command : Char) : LineEditor × List ScreenOp :=
  if command = '+' then
    let e := { self with prompt := "Add tickers: ".toList, command := command }
    (e, [ScreenOp.drawLine 0 3 ("<white>".toList ++ e.prompt ++ "</>".toList),
         ScreenOp.setCursor (e.prompt.length : Int) 3, ScreenOp.flush])
  else if command = '-' then
    let e := { self with prompt := "Remove tickers: ".toList, command := command }
    (e, [ScreenOp.drawLine 0 3 ("<white>".toList ++ e.prompt ++ "</>".toList),
         ScreenOp.setCursor (e.prompt.length : Int) 3, ScreenOp.flush])
  else
    (self, [])

/-- line_editor.go lines 116-123: move the cursor one position left,
stopping at 0. -/
def move_left (self : LineEditor) : LineEditor × List ScreenOp :=
  if self.cursor > 0 then
    let e := { self with cursor := self.cursor - 1 }
    (e, [ScreenOp.setCursor ((e.prompt.length : Int) + e.cursor) 3])
  else
    (self, [])

/-- line_editor.go lines 126-133: move the cursor one position right,
stopping at the end of the input. -/
def move_right (self : LineEditor) : LineEditor × List ScreenOp :=
  if self.cursor < (self.input.length : Int) then
    let e := { self with cursor := self.cursor + 1 }
    (e, [ScreenOp.setCursor ((e.prompt.length : Int) + e.cursor) 3])
  else
    (self, [])

/-- line_editor.go lines 136-141: jump to the beginning of the input. -/
def jump_to_beginning (self : LineEditor) : LineEditor × List ScreenOp :=
  let e := { self with cursor := 0 }
  (e, [ScreenOp.setCursor ((e.prompt.length : Int) + e.cursor) 3])

/-- line_editor.go lines 144-149: jump to the end of the input. -/
def jump_to_end (self : LineEditor) : LineEditor × List ScreenOp :=
  let e := { self with cursor := (self.input.length : Int) }
  (e, [ScreenOp.setCursor ((e.prompt.length : Int) + e.cursor) 3])

/-- line_editor.go lines 84-98: delete the character before the cursor
(no-op at 0), redraw the line with one trailing blank, then retreat the
cursor via `move_left`. -/
def delete_previous_character (self : LineEditor) : LineEditor × List ScreenOp :=
  if self.cursor > 0 then
    let newInput :=
      if self.cursor < (self.input.length : Int) then
        self.input.take (self.cursor - 1).toNat ++ self.input.drop self.cursor.toNat
      else
        self.input.take (self.input.length - 1)
    let e := { self with input := newInput }
    let r := move_left e
    (r.1, ScreenOp.drawLine (e.prompt.length : Int) 3 (newInput ++ [' ']) :: r.2)
  else
    (self, [])

/-- line_editor.go lines 101-113: splice a character into the input at
the cursor (append when the cursor is at or past the end), redraw, then
advance the cursor via `move_right`. -/
def insert_character (self : LineEditor) (ch : Char) : LineEditor × List ScreenOp :=
  let newInput :=
    if self.cursor < (self.input.length : Int) then
      self.input.take self.cursor.toNat ++ [ch] ++ self.input.drop self.cursor.toNat
    else
      self.input ++ [ch]
  let e := { self with input := newInput }
  let r := move_right e
  (r.1, ScreenOp.drawLine (e.prompt.length : Int) 3 newInput :: r.2)

/-- Character class of the Go regexp `\s` (RE2 Perl class):
tab, newline, form feed, carriage return, space. -/
def isRegexpSpace (c : Char) : Bool :=
  c = '\t' || c = '\n' || c = '\x0c' || c = '\r' || c = ' '

/-- Character class of the split pattern `[,\s]+`. -/
def isSepChar (c : Char) : Bool :=
  c = ',' || isRegexpSpace c

/-- Go `unicode.IsSpace`: Latin-1 white space plus the Unicode
White_Space code points. -/
def isUnicodeSpace (c : Char) : Bool :=
  c = '\t' || c = '\n' || c = '\x0b' || c = '\x0c' || c = '\r' || c = ' ' ||
  c = '\x85' || c = '\xa0' || c = '\u1680' ||
  ('\u2000' ≤ c && c ≤ '\u200a') ||
  c = '\u2028' || c = '\u2029' || c = '\u202f' || c = '\u205f' || c = '\u3000'

/-- Go `strings.TrimSpace`: drop leading and trailing white space. -/
def trimSpace (s : List Char) : List Char :=
  ((s.dropWhile isUnicodeSpace).reverse.dropWhile isUnicodeSpace).reverse

/-- Go `strings.ToUpper`, modelled character-wise; `Char.toUpper`
agrees with Go on ASCII, which is the data the editor claims exercise. -/
def goToUpper (s : List Char) : List Char :=
  s.map Char.toUpper

/-- Worker for Go `regexp.Split` with pattern `[,\s]+`: each maximal
nonempty run of separator characters is one match, and the substrings
between matches are returned, including empty ones at the edges.  The
second argument is `some cur` while accumulating a (reversed) piece and
`none` directly after consuming a separator inside a run. -/
def regexSplitAux : List Char → Option (List Char) → List (List Char)
  | [], some cur => [cur.reverse]
  | [], none => [[]]
  | c :: rest, some cur =>
    if isSepChar c then cur.reverse :: regexSplitAux rest none
    else regexSplitAux rest (some (c :: cur))
  | c :: rest, none =>
    if isSepChar c then regexSplitAux rest none
    else regexSplitAux rest (some [c])

/-- Go `regexp.MustCompile("[,\\s]+").Split(s, -1)`.  On the empty
string there is no match, so the result is the one-element list
containing the empty string. -/
def regexSplitSeps (s : List Char) : List (List Char) :=
  regexSplitAux s (some [])

/-- line_editor.go lines 190-193: uppercase, trim, split on runs of
commas/white space. -/
def tokenize (self : LineEditor) : List (List Char) :=
  regexSplitSeps (goToUpper (trimSpace self.input))

/-- The tokenization §4.6 of the spec describes: uppercase, trim, split
on any run of comma/white-space characters, *discarding empty tokens* —
i.e. the maximal nonempty separator-free runs, in order. -/
def fieldsAux : List Char → List Char → List (List Char)
  | [], cur => if cur.isEmpty then [] else [cur.reverse]
  | c :: rest, cur =>
    if isSepChar c then
      if cur.isEmpty then fieldsAux rest [] else cur.reverse :: fieldsAux rest []
    else
      fieldsAux rest (c :: cur)

/-- The spec's tokenization (empty tokens discarded), for comparison
with the code's `tokenize`. -/
def tokenizeSpec (self : LineEditor) : List (List Char) :=
  fieldsAux (goToUpper (trimSpace self.input)) []

/-- line_editor.go lines 182-187: clear the edit row, hide the terminal
cursor, and report the session as finished.  Note: neither the input
buffer nor the cursor is touched. -/
def done (self : LineEditor) : (LineEditor × List ScreenOp) × Bool :=
  ((self, [ScreenOp.clearLine 0 3, ScreenOp.hideCursor]), true)

/-- line_editor.go lines 152-179: commit the edit.  The add branch
redraws the table when anything was added; the remove branch records the
ticker count `before`, removes, redraws, clears one trailing row per
removed ticker (rows `before+4` down to `after+5`), and clears the
header row 4 when no tickers remain. -/
def execute (self : LineEditor) : LineEditor × List ScreenOp :=
  if self.command = '+' then
    let tickers := tokenize self
    if tickers.length > 0 then
      let r := AddTickers self.quotes tickers
      if r.1 > 0 then
        ({ self with quotes := r.2 }, [ScreenOp.drawQuotes r.2.Tickers])
      else
        ({ self with quotes := r.2 }, [])
    else
      (self, [])
  else if self.command = '-' then
    let tickers := tokenize self
    if tickers.length > 0 then
      let before := self.quotes.Tickers.length
      let r := RemoveTickers self.quotes tickers
      if r.1 > 0 then
        let after := before - r.1
        ({ self with quotes := r.2 },
          ScreenOp.drawQuotes r.2.Tickers ::
          ((List.range (before - after)).map
              (fun k => ScreenOp.clearLine 0 ((before : Int) - (k : Int) + 4))
            ++ (if after = 0 then [ScreenOp.clearLine 0 4] else [])))
      else
        ({ self with quotes := r.2 }, [])
    else
      (self, [])
  else
    (self, [])

/-- The termbox key constants that `Handle` dispatches on; every other
key constant falls into the `default` branch, represented by `other`. -/
inductive Key where
  | esc | enter | backspace | backspace2 | ctrlB | arrowLeft | ctrlF | arrowRight
  | ctrlA | ctrlE | space | other
  deriving DecidableEq

/-- A termbox keyboard event: a key constant plus the character payload
(`Ch`, zero when a key constant fired). -/
structure Event where
  key : Key
  ch : Char
  deriving DecidableEq

/-- Append the deferred `termbox.Flush()` to an action's trace. -/
def withFlush (x : (LineEditor × List ScreenOp) × Bool) : (LineEditor × List ScreenOp) × Bool :=
  ((x.1.1, x.1.2 ++ [ScreenOp.flush]), x.2)

/-- `self.execute().done()`: chain `done` after `execute`, concatenating
the traces. -/
def chainDone (x : LineEditor × List ScreenOp) : (LineEditor × List ScreenOp) × Bool :=
  ((x.1, x.2 ++ ((done x.1).1).2), (done x.1).2)

/-- line_editor.go lines 46-81: the keyboard dispatch.  Returns the new
state, the emitted trace (with the deferred flush last), and whether the
capture session ended. -/
def Handle (self : LineEditor) (ev : Event) : (LineEditor × List ScreenOp) × Bool :=
  withFlush <|
    match ev.key with
    | Key.esc => done self
    | Key.enter => chainDone (execute self)
    | Key.backspace => (delete_previous_character self, false)
    | Key.backspace2 => (delete_previous_character self, false)
    | Key.ctrlB => (move_left self, false)
    | Key.arrowLeft => (move_left self, false)
    | Key.ctrlF => (move_right self, false)
    | Key.arrowRight => (move_right self, false)
    | Key.ctrlA => (jump_to_beginning self, false)
    | Key.ctrlE => (jump_to_end self, false)
    | Key.space => (insert_character self ' ', false)
    | Key.other =>
      if ev.ch ≠ '\x00' then (insert_character self ev.ch, false)
      else ((self, []), false)

/-- Fold a sequence of keyboard events through `Handle`, keeping the
editor state. -/
def handleAll (e : LineEditor) (evs : List Event) : LineEditor :=
  evs.foldl (fun acc ev => ((Handle acc ev).1).1) e

/-- The cursor-bounds invariant from §3 of the spec. -/
def cursorInBounds (e : LineEditor) : Prop :=
  0 ≤ e.cursor ∧ e.cursor ≤ (e.input.length : Int)

instance (e : LineEditor) : Decidable (cursorInBounds e) :=
  inferInstanceAs (Decidable (_ ∧ _))

/-- Abstract carrier for the float64 payloads of the JSON body. -/
abbrev Float64 := Int

/-- Modelled from the spec: `float2Str` (defined in a source file not
provided) renders a number as a fixed-precision decimal string; on the
abstract carrier it is modelled as the decimal rendering of the value. -/
def float2Str (v : Float64) : String :=
  toString v

/-- One element of the `result` array: Go `map[string]interface\x7b\x7d`
restricted to its numeric fields. -/
abbrev RawQuote := List (String × Float64)

/-- Lookup in a `RawQuote`; `none` models a missing key or a failed
`.(float64)` type assertion, which panics in the Go source. -/
def mapGet (m : RawQuote) (k : String) : Option Float64 :=
  (m.find? (fun p => p.1 = k)).map (fun p => p.2)

/-- Go `map[string]string`, as an association list in insertion order. -/
abbrev QuoteHash := List (String × String)

/-- Write `m[k] = v` on a Go string map. -/
def hashSet (m : QuoteHash) (k v : String) : QuoteHash :=
  if m.any (fun p => p.1 = k) then
    m.map (fun p => if p.1 = k then (k, v) else p)
  else
    m ++ [(k, v)]

/-- Read `m[k]` on a Go string map. -/
def hashGet (m : QuoteHash) (k : String) : Option String :=
  (m.find? (fun p => p.1 = k)).map (fun p => p.2)

/-- yahoo_market.go lines 74-95: the Market state.  The per-indicator
`map[string]string` hashes are association lists; `url`, `cookies` and
`crumb` are carried but are opaque to the claims. -/
structure Market where
  IsClosed : Bool
  Dow : QuoteHash
  Nasdaq : QuoteHash
  Sp500 : QuoteHash
  Btc : QuoteHash
  Tokyo : QuoteHash
  HongKong : QuoteHash
  London : QuoteHash
  Frankfurt : QuoteHash
  Yield : QuoteHash
  Silver : QuoteHash
  Yen : QuoteHash
  Rub : QuoteHash
  Gbp : QuoteHash
  Euro : QuoteHash
  Gold : QuoteHash
  errors : String
  url : String
  cookies : String
  crumb : String
  deriving DecidableEq

/-- yahoo_market.go lines 98-124: `NewMarket`, with the externally
obtained cookies and crumb passed in (fetchCookies/fetchCrumb live in a
source file not provided).  Note the source does not `make` the Rub and
Gbp hashes; every hash starts empty here either way. -/
def NewMarket (cookies crumb : String) : Market :=
  { IsClosed := false
    Dow := [], Nasdaq := [], Sp500 := [], Btc := []
    Tokyo := [], HongKong := [], London := [], Frankfurt := []
    Yield := [], Silver := [], Yen := [], Rub := [], Gbp := [], Euro := [], Gold := []
    errors := ""
    url := "https://query1.finance.yahoo.com/v7/finance/quote?crumb=" ++ crumb ++
      "&symbols=" ++ "^DJI,^IXIC,^GSPC,BTC-USD,^N225,^HSI,^FTSE,^GDAXI,JPY=X,RUB=X,GBP=X,EUR=X,^TNX,SI=F,GC=F" ++
      "&range=1d&interval=5m&indicators=close&includeTimestamps=false&includePrePost=false&corsDomain=finance.yahoo.com&.tsrc=finance"
    cookies := cookies
    crumb := crumb }

/-- yahoo_market.go lines 188-198: `assign` builds one indicator hash
from the entry at `position`.  `none` models the panics of the source
(index out of range, missing key, failed type assertion); the writes
happen in source order: `change`, `latest`, then `change` again or
`percent` depending on `changeAsPercent`. -/
def assign (results : List RawQuote) (position : Nat) (changeAsPercent : Bool) :
    Option QuoteHash := do
  let entry ← results[position]?
  let c ← mapGet entry "regularMarketChange"
  let out := hashSet [] "change" (float2Str c)
  let l ← mapGet entry "regularMarketPrice"
  let out := hashSet out "latest" (float2Str l)
  let p ← mapGet entry "regularMarketChangePercent"
  let out :=
    if changeAsPercent then hashSet out "change" (float2Str p ++ "%")
    else hashSet out "percent" (float2Str p ++ "%")
  pure out

/-- yahoo_market.go lines 201-227: `extract` assigns the fifteen slots
in order from positions 0-14, mutating the market statement by
statement.  The Boolean is `true` when a statement panicked; the
returned market keeps every mutation made before the panic, exactly as
the Go pointer receiver does under `recover()`.  Note line 221 sets the
`name` key on the old Yield hash and line 222 then replaces the whole
hash with `assign(results, 12)`. -/
def extract (market : Market) (results : List RawQuote) : Market × Bool :=
  match assign results 0 false with
  | none => (market, true)
  | some q0 =>
  let market := { market with Dow := q0 }
  match assign results 1 false with
  | none => (market, true)
  | some q1 =>
  let market := { market with Nasdaq := q1 }
  match assign results 2 false with
  | none => (market, true)
  | some q2 =>
  let market := { market with Sp500 := q2 }
  match assign results 3 false with
  | none => (market, true)
  | some q3 =>
  let market := { market with Btc := q3 }
  match assign results 4 false with
  | none => (market, true)
  | some q4 =>
  let market := { market with Tokyo := q4 }
  match assign results 5 false with
  | none => (market, true)
  | some q5 =>
  let market := { market with HongKong := q5 }
  match assign results 6 false with
  | none => (market, true)
  | some q6 =>
  let market := { market with London := q6 }
  match assign results 7 false with
  | none => (market, true)
  | some q7 =>
  let market := { market with Frankfurt := q7 }
  match assign results 8 false with
  | none => (market, true)
  | some q8 =>
  let market := { market with Yen := q8 }
  match assign results 9 false with
  | none => (market, true)
  | some q9 =>
  let market := { market with Rub := q9 }
  match assign results 10 false with
  | none => (market, true)
  | some q10 =>
  let market := { market with Gbp := q10 }
  match assign results 11 false with
  | none => (market, true)
  | some q11 =>
  let market := { market with Euro := q11 }
  let market := { market with Yield := hashSet market.Yield "name" "10-year Yield" }
  match assign results 12 false with
  | none => (market, true)
  | some q12 =>
  let market := { market with Yield := q12 }
  match assign results 13 false with
  | none => (market, true)
  | some q13 =>
  let market := { market with Silver := q13 }
  match assign results 14 false with
  | none => (market, true)
  | some q14 =>
  let market := { market with Gold := q14 }
  (market, false)

/-- The decoded shape `map[string]map[string][]map[string]interface\x7b\x7d`
of yahoo_market.go line 202. -/
abbrev DecodedBody := List (String × List (String × List RawQuote))

/-- `d["quoteResponse"]["result"]`: Go map indexing yields the zero
value (the empty slice) when a key is absent. -/
def resultsOf (d : DecodedBody) : List RawQuote :=
  ((((d.find? (fun p => p.1 = "quoteResponse")).map (fun p => p.2)).getD
    []).find? (fun p => p.1 = "result")).map (fun p => p.2) |>.getD []

/-- Build the decoded body of a well-shaped response. -/
def mkBody (results : List RawQuote) : DecodedBody :=
  [("quoteResponse", [("result", results)])]

/-- The possible outcomes of the I/O prefix of `Fetch` (yahoo_market.go
lines 136-171): the request construction, the HTTP round trip (including
its 10-second timeout) and the body read each panic on error, and the
JSON unmarshal of line 203 panics on a malformed body. -/
inductive FetchOutcome where
  | requestError
  | networkError
  | readError
  | badBody
  | decoded (d : DecodedBody)

/-- yahoo_market.go lines 128-173: `Fetch`.  Every internal failure
panics; the deferred `recover()` catches it and sets `errors` to the
empty string ("Don't pollute the screen"), returning the same market
pointer with whatever mutations `extract` already made.  `isMarketOpen`
(lines 182-185) is the identity on the body. -/
def Fetch (market : Market) (outcome : FetchOutcome) : Market :=
  match outcome with
  | FetchOutcome.requestError => { market with errors := "" }
  | FetchOutcome.networkError => { market with errors := "" }
  | FetchOutcome.readError => { market with errors := "" }
  | FetchOutcome.badBody => { market with errors := "" }
  | FetchOutcome.decoded d =>
    let r := extract market (resultsOf d)
    if r.2 then { r.1 with errors := "" } else r.1

/-- yahoo_market.go lines 177-179: `Ok` reports whether the market is
healthy (no recorded error) together with the error text. -/
def Ok (market : Market) : Bool × String :=
  (market.errors == "", market.errors)

/-- A fetch outcome on which the Go `Fetch` panics and recovers: any
I/O or unmarshal failure, or a decoded body on which `extract` panics
partway. -/
def FetchFails (market : Market) (outcome : FetchOutcome) : Prop :=
  match outcome with
  | FetchOutcome.decoded d => (extract market (resultsOf d)).2 = true
  | _ => True

/-- A result entry carrying all three numeric fields `assign` reads. -/
def hasQuoteFields (q : RawQuote) : Bool :=
  (mapGet q "regularMarketChange").isSome &&
  (mapGet q "regularMarketPrice").isSome &&
  (mapGet q "regularMarketChangePercent").isSome

/-! Concrete sample inputs used by counterexamples and witnesses. -/

/-- A well-formed result entry whose three numeric fields all carry `v`. -/
def mkRawQuote (v : Float64) : RawQuote :=
  [("regularMarketChange", v), ("regularMarketPrice", v), ("regularMarketChangePercent", v)]

/-- `n` well-formed result entries, entry `i` carrying the value `i`. -/
def sampleResults (n : Nat) : List RawQuote :=
  (List.range n).map (fun i => mkRawQuote (i : Int))

/-- A freshly constructed market. -/
def mInit : Market := NewMarket "ck" "cr"

/-- A market still holding data from an earlier successful fetch. -/
def mPrev : Market :=
  { mInit with Dow := [("latest", "OLD")], Gold := [("latest", "OLDGOLD")] }

/-- Editor whose buffer starts with a comma after trimming. -/
def edC3a : LineEditor :=
  { command := '+', prompt := [], cursor := 0, input := ",AAPL".toList, quotes := ⟨[]⟩ }

/-- Editor mid-session with a nonempty buffer; used to show `done` does
not reset the session state. -/
def edC4 : LineEditor :=
  { command := '-', prompt := "Remove tickers: ".toList, cursor := 2,
    input := "AAPL".toList, quotes := ⟨[]⟩ }

/-- Editor about to commit the removal of MSFT from a three-ticker set. -/
def edC5 : LineEditor :=
  { command := '-', prompt := "Remove tickers: ".toList, cursor := 4,
    input := "msft".toList,
    quotes := ⟨["AAPL".toList, "MSFT".toList, "TSLA".toList]⟩ }

/-- Editor with buffer AAPL and the cursor at the left edge. -/
def edC6 : LineEditor :=
  { command := '+', prompt := "Add tickers: ".toList, cursor := 0,
    input := "AAPL".toList, quotes := ⟨[]⟩ }

/-- A key-event sequence exercising every editing action. -/
def evsC6 : List Event :=
  [⟨Key.arrowLeft, '\x00'⟩, ⟨Key.arrowLeft, '\x00'⟩, ⟨Key.ctrlE, '\x00'⟩,
   ⟨Key.arrowRight, '\x00'⟩, ⟨Key.other, 'x'⟩, ⟨Key.backspace, '\x00'⟩,
   ⟨Key.space, ' '⟩, ⟨Key.ctrlA, '\x00'⟩, ⟨Key.ctrlB, '\x00'⟩]

/-- Editor with buffer AAPL and the cursor between the second and third
characters. -/
def edC7 : LineEditor :=
  { command := '+', prompt := "Add tickers: ".toList, cursor := 2,
    input := "AAPL".toList, quotes := ⟨[]⟩ }

/-! Theorems. -/

/-- C10: `Handle` returns true exactly when the event's key is Escape or
Enter; every other event leaves the capture session running. -/
theorem handle_returns_true_iff_esc_or_enter (e : LineEditor) (ev : Event) :
    (Handle e ev).2 = true ↔ (ev.key = Key.esc ∨ ev.key = Key.enter) := by
  obtain ⟨k, c⟩ := ev
  cases k <;> simp [Handle, withFlush, chainDone, done]
  split <;> rfl

/-- C4 counterexample: ending the session with `done` and starting a new
one with `Prompt` does not reset the buffer to empty nor the cursor to
0 — the previous session's contents survive. -/
theorem done_then_prompt_stale_counterexample :
    ((Prompt ((done edC4).1.1) '+').1).input = "AAPL".toList
    ∧ ((Prompt ((done edC4).1.1) '+').1).cursor = 2
    ∧ ¬(((Prompt ((done edC4).1.1) '+').1).input = []
        ∧ ((Prompt ((done edC4).1.1) '+').1).cursor = 0) := by
  decide

/-- C4 (amended): `done` ends the session (returns true), clears the
edit row and hides the terminal cursor, but leaves the whole editor
state — in particular buffer and cursor — unchanged; `Prompt` also
leaves buffer and cursor unchanged, so a session started on the same
`LineEditor` value begins with the previous contents.  (A fresh-looking
session relies on the caller constructing a new `LineEditor`.) -/
theorem done_preserves_buffer_and_cursor (e : LineEditor) (c : Char) :
    ((done e).1.1) = e
    ∧ (done e).2 = true
    ∧ ((Prompt e c).1).input = e.input
    ∧ ((Prompt e c).1).cursor = e.cursor := by
  refine ⟨rfl, rfl, ?_, ?_⟩ <;>
    (unfold Prompt; split <;> (try split) <;> rfl)

/-- C3 counterexample: `tokenize` does not discard empty tokens — a
buffer starting with a comma (after trimming) yields a leading
empty-string token. -/
theorem tokenize_empty_token_counterexample :
    tokenize edC3a = [[], "AAPL".toList] ∧ [] ∈ tokenize edC3a := by
  decide

/-- Relates the code's splitter (empty pieces kept) to the spec's
splitter (empty pieces discarded): filtering the empties out of the
former yields the latter. -/
lemma regexSplitAux_filter (s : List Char) :
    ∀ o : Option (List Char),
      (regexSplitAux s o).filter (fun t => !t.isEmpty) = fieldsAux s (o.getD []) := by
  induction s with
  | nil =>
    intro o
    cases o with
    | none => simp [regexSplitAux, fieldsAux]
    | some cur =>
      cases cur with
      | nil => simp [regexSplitAux, fieldsAux]
      | cons a l => simp [regexSplitAux, fieldsAux]
  | cons c rest ih =>
    intro o
    cases o with
    | none =>
      by_cases hc : isSepChar c = true
      · simpa [regexSplitAux, fieldsAux, hc] using ih none
      · simpa [regexSplitAux, fieldsAux, hc] using ih (some [c])
    | some cur =>
      by_cases hc : isSepChar c = true
      · cases cur with
        | nil => simpa [regexSplitAux, fieldsAux, hc] using ih none
        | cons a l => simpa [regexSplitAux, fieldsAux, hc] using ih none
      · simpa [regexSplitAux, fieldsAux, hc] using ih (some (c :: cur))

/-- C3 (amended): `tokenize` uppercases and trims the buffer and splits
it on maximal runs of comma/white-space characters, but it does *not*
discard empty tokens; discarding them afterwards yields exactly the
tokenization the spec describes. -/
theorem tokenize_keeps_empty_tokens (e : LineEditor) :
    (tokenize e).filter (fun t => !t.isEmpty) = tokenizeSpec e := by
  simpa using regexSplitAux_filter (goToUpper (trimSpace e.input)) (some [])

/-- `move_right` does not change the input buffer. -/
lemma move_right_fst_input (e : LineEditor) : ((move_right e).1).input = e.input := by
  unfold move_right; split <;> rfl

/-- C7: inserting a character splices it into the buffer at the cursor
position (also when the cursor is at the end) and advances the cursor by
one. -/
theorem insert_character_splices (e : LineEditor) (ch : Char)
    (h0 : 0 ≤ e.cursor) (h1 : e.cursor ≤ (e.input.length : Int)) :
    ((insert_character e ch).1).input
      = e.input.take e.cursor.toNat ++ [ch] ++ e.input.drop e.cursor.toNat
    ∧ ((insert_character e ch).1).cursor = e.cursor + 1 := by
  by_cases hlt : e.cursor < (e.input.length : Int)
  · have hres : (insert_character e ch).1
        = (move_right { e with
            input := e.input.take e.cursor.toNat ++ [ch] ++ e.input.drop e.cursor.toNat }).1 := by
      simp only [insert_character, if_pos hlt]
    have hguard : ({ e with
        input := e.input.take e.cursor.toNat ++ [ch] ++ e.input.drop e.cursor.toNat } :
        LineEditor).cursor
        < ((({ e with
            input := e.input.take e.cursor.toNat ++ [ch] ++ e.input.drop e.cursor.toNat } :
            LineEditor).input.length : Int)) := by
      show e.cursor < ((e.input.take e.cursor.toNat ++ [ch] ++ e.input.drop e.cursor.toNat).length : Int)
      simp only [List.length_append, List.length_take, List.length_drop,
        List.length_cons, List.length_nil]
      omega
    constructor
    · rw [hres, move_right_fst_input]
    · rw [hres]
      unfold move_right
      rw [if_pos hguard]
  · have hc : e.cursor = (e.input.length : Int) := by omega
    have hres : (insert_character e ch).1
        = (move_right { e with input := e.input ++ [ch] }).1 := by
      simp only [insert_character, if_neg hlt]
    have htake : e.input.take e.cursor.toNat = e.input := by
      apply List.take_of_length_le; omega
    have hdrop : e.input.drop e.cursor.toNat = [] := by
      apply List.drop_eq_nil_of_le; omega
    have hguard : ({ e with input := e.input ++ [ch] } : LineEditor).cursor
        < ((({ e with input := e.input ++ [ch] } : LineEditor).input.length : Int)) := by
      show e.cursor < ((e.input ++ [ch]).length : Int)
      simp only [List.length_append, List.length_cons, List.length_nil]
      omega
    constructor
    · rw [hres, move_right_fst_input]
      show e.input ++ [ch] = _
      rw [htake, hdrop]
      simp
    · rw [hres]
      unfold move_right
      rw [if_pos hguard]

/-- Witness for C7 at the spec's concrete example: buffer AAPL, cursor
2, inserting X yields AAXPL with cursor 3. -/
theorem insert_character_splices_witness :
    ((insert_character edC7 'X').1).input = "AAXPL".toList
    ∧ ((insert_character edC7 'X').1).cursor = 3 := by
  obtain ⟨hi, hc⟩ := insert_character_splices edC7 'X' (by decide) (by decide)
  exact ⟨hi.trans (by decide), hc.trans (by decide)⟩

/-- Transfer the cursor invariant along equal cursor and input fields. -/
lemma cursorInBounds_of_eq {a b : LineEditor} (hc : b.cursor = a.cursor)
    (hi : b.input = a.input) (h : cursorInBounds a) : cursorInBounds b := by
  have h1 := h.1
  have h2 := h.2
  constructor
  · rw [hc]; exact h1
  · rw [hc, hi]; exact h2

/-- `move_left` keeps the cursor in bounds as soon as it was at most one
past the end; the guard keeps it nonnegative. -/
lemma move_left_inv_relaxed (e : LineEditor) (h0 : e.cursor > 0)
    (h1 : e.cursor ≤ (e.input.length : Int) + 1) :
    cursorInBounds ((move_left e).1) := by
  simp only [move_left, if_pos h0]
  exact ⟨by show 0 ≤ e.cursor - 1; omega,
         by show e.cursor - 1 ≤ (e.input.length : Int); omega⟩

/-- `move_left` preserves the cursor invariant. -/
lemma move_left_inv (e : LineEditor) (h : cursorInBounds e) :
    cursorInBounds ((move_left e).1) := by
  obtain ⟨h0, h1⟩ := h
  by_cases hc : e.cursor > 0
  · exact move_left_inv_relaxed e hc (by omega)
  · simp only [move_left, if_neg hc]
    exact ⟨h0, h1⟩

/-- `move_right` preserves the cursor invariant. -/
lemma move_right_inv (e : LineEditor) (h : cursorInBounds e) :
    cursorInBounds ((move_right e).1) := by
  obtain ⟨h0, h1⟩ := h
  by_cases hc : e.cursor < (e.input.length : Int)
  · simp only [move_right, if_pos hc]
    exact ⟨by show 0 ≤ e.cursor + 1; omega,
           by show e.cursor + 1 ≤ (e.input.length : Int); omega⟩
  · simp only [move_right, if_neg hc]
    exact ⟨h0, h1⟩

/-- `jump_to_beginning` establishes the cursor invariant outright. -/
lemma jump_to_beginning_inv (e : LineEditor) :
    cursorInBounds ((jump_to_beginning e).1) :=
  ⟨le_refl 0, by show (0 : Int) ≤ (e.input.length : Int); omega⟩

/-- `jump_to_end` establishes the cursor invariant outright. -/
lemma jump_to_end_inv (e : LineEditor) :
    cursorInBounds ((jump_to_end e).1) :=
  ⟨by show (0 : Int) ≤ (e.input.length : Int); omega, le_refl _⟩

/-- `delete_previous_character` preserves the cursor invariant. -/
lemma delete_previous_character_inv (e : LineEditor) (h : cursorInBounds e) :
    cursorInBounds ((delete_previous_character e).1) := by
  obtain ⟨h0, h1⟩ := h
  by_cases hc : e.cursor > 0
  · by_cases hlt : e.cursor < (e.input.length : Int)
    · have hres : (delete_previous_character e).1
          = (move_left { e with
              input := e.input.take (e.cursor - 1).toNat ++ e.input.drop e.cursor.toNat }).1 := by
        simp only [delete_previous_character, if_pos hc, if_pos hlt]
      rw [hres]
      refine move_left_inv_relaxed _ hc ?_
      show e.cursor ≤ ((e.input.take (e.cursor - 1).toNat ++ e.input.drop e.cursor.toNat).length : Int) + 1
      simp only [List.length_append, List.length_take, List.length_drop]
      omega
    · have hres : (delete_previous_character e).1
          = (move_left { e with input := e.input.take (e.input.length - 1) }).1 := by
        simp only [delete_previous_character, if_pos hc, if_neg hlt]
      rw [hres]
      refine move_left_inv_relaxed _ hc ?_
      show e.cursor ≤ ((e.input.take (e.input.length - 1)).length : Int) + 1
      simp only [List.length_take]
      omega
  · simp only [delete_previous_character, if_neg hc]
    exact ⟨h0, h1⟩

/-- `insert_character` preserves the cursor invariant. -/
lemma insert_character_inv (e : LineEditor) (ch : Char) (h : cursorInBounds e) :
    cursorInBounds ((insert_character e ch).1) := by
  obtain ⟨h0, h1⟩ := h
  by_cases hlt : e.cursor < (e.input.length : Int)
  · have hres : (insert_character e ch).1
        = (move_right { e with
            input := e.input.take e.cursor.toNat ++ [ch] ++ e.input.drop e.cursor.toNat }).1 := by
      simp only [insert_character, if_pos hlt]
    rw [hres]
    refine move_right_inv _ ⟨h0, ?_⟩
    show e.cursor ≤ ((e.input.take e.cursor.toNat ++ [ch] ++ e.input.drop e.cursor.toNat).length : Int)
    simp only [List.length_append, List.length_take, List.length_drop,
      List.length_cons, List.length_nil]
    omega
  · have hres : (insert_character e ch).1
        = (move_right { e with input := e.input ++ [ch] }).1 := by
      simp only [insert_character, if_neg hlt]
    rw [hres]
    refine move_right_inv _ ⟨h0, ?_⟩
    show e.cursor ≤ ((e.input ++ [ch]).length : Int)
    simp only [List.length_append, List.length_cons, List.length_nil]
    omega

/-- `execute` touches only the quotes field: cursor and input survive. -/
lemma execute_fst_cursor_input (e : LineEditor) :
    ((execute e).1).cursor = e.cursor ∧ ((execute e).1).input = e.input := by
  simp only [execute]
  repeat' split
  all_goals exact ⟨rfl, rfl⟩

/-- One `Handle` step preserves the cursor invariant. -/
lemma Handle_inv (e : LineEditor) (ev : Event) (h : cursorInBounds e) :
    cursorInBounds (((Handle e ev).1).1) := by
  obtain ⟨k, c⟩ := ev
  cases k with
  | esc => exact h
  | enter =>
    exact cursorInBounds_of_eq (execute_fst_cursor_input e).1
      (execute_fst_cursor_input e).2 h
  | backspace => exact delete_previous_character_inv e h
  | backspace2 => exact delete_previous_character_inv e h
  | ctrlB => exact move_left_inv e h
  | arrowLeft => exact move_left_inv e h
  | ctrlF => exact move_right_inv e h
  | arrowRight => exact move_right_inv e h
  | ctrlA => exact jump_to_beginning_inv e
  | ctrlE => exact jump_to_end_inv e
  | space => exact insert_character_inv e ' ' h
  | other =>
    dsimp only [Handle, withFlush]
    split
    · exact insert_character_inv e c h
    · exact h

/-- C6: the invariant `0 ≤ cursor ≤ length input` is preserved by every
key action and hence by every finite sequence of key events, in any
order; in particular the cursor never goes negative under repeated
move-left and never exceeds the buffer length under repeated
move-right. -/
theorem handle_preserves_cursor_bounds (e : LineEditor) (evs : List Event)
    (h : cursorInBounds e) : cursorInBounds (handleAll e evs) := by
  induction evs generalizing e with
  | nil => exact h
  | cons ev rest ih =>
    have hstep : handleAll e (ev :: rest) = handleAll (((Handle e ev).1).1) rest := rfl
    rw [hstep]
    exact ih _ (Handle_inv e ev h)

/-- Witness for C6: a concrete editor and event sequence exercising all
six actions, including move-left at 0 and move-right at the end. -/
theorem handle_preserves_cursor_bounds_witness :
    cursorInBounds edC6 ∧ cursorInBounds (handleAll edC6 evsC6) :=
  ⟨by decide, handle_preserves_cursor_bounds edC6 evsC6 (by decide)⟩

/-- The removal count never exceeds the prior ticker count. -/
lemma RemoveTickers_count_le (q : Quotes) (tickers : List (List Char)) :
    (RemoveTickers q tickers).1 ≤ q.Tickers.length :=
  Nat.sub_le _ _

/-- The surviving ticker count is the prior count minus the removal
count. -/
lemma RemoveTickers_len (q : Quotes) (tickers : List (List Char)) :
    (RemoveTickers q tickers).2.Tickers.length
      = q.Tickers.length - (RemoveTickers q tickers).1 := by
  have hf : (q.Tickers.filter (fun t => decide (t ∉ tickers))).length ≤ q.Tickers.length :=
    List.length_filter_le _ _
  simp only [RemoveTickers]
  omega

/-- C5: a remove commit that actually removed `removed` tickers from a
set of prior size `before` first redraws the table, then clears exactly
the `removed` trailing screen rows `before+4` down to
`(before-removed)+5`, and clears the header row 4 exactly when the
resulting ticker set is empty. -/
theorem remove_commit_clears_trailing_rows (e : LineEditor)
    (hcmd : e.command = '-')
    (hne : (tokenize e).length > 0)
    (hrem : (RemoveTickers e.quotes (tokenize e)).1 > 0) :
    (execute e).2
      = ScreenOp.drawQuotes (RemoveTickers e.quotes (tokenize e)).2.Tickers
        :: ((List.range (RemoveTickers e.quotes (tokenize e)).1).map
              (fun k => ScreenOp.clearLine 0 ((e.quotes.Tickers.length : Int) - (k : Int) + 4))
            ++ (if e.quotes.Tickers.length - (RemoveTickers e.quotes (tokenize e)).1 = 0
                then [ScreenOp.clearLine 0 4] else []))
    ∧ (RemoveTickers e.quotes (tokenize e)).1 ≤ e.quotes.Tickers.length
    ∧ (RemoveTickers e.quotes (tokenize e)).2.Tickers.length
        = e.quotes.Tickers.length - (RemoveTickers e.quotes (tokenize e)).1
    ∧ ((RemoveTickers e.quotes (tokenize e)).2.Tickers = []
        ↔ e.quotes.Tickers.length - (RemoveTickers e.quotes (tokenize e)).1 = 0) := by
  have hle := RemoveTickers_count_le e.quotes (tokenize e)
  have hlen := RemoveTickers_len e.quotes (tokenize e)
  refine ⟨?_, hle, hlen, ?_⟩
  · simp only [execute]
    rw [hcmd]
    rw [if_neg (show ¬('-' : Char) = '+' by decide), if_pos (show ('-' : Char) = '-' from rfl)]
    rw [if_pos hne, if_pos hrem]
    rw [Nat.sub_sub_self hle]
  · rw [← hlen, List.length_eq_zero]

/-- Witness for C5 at the spec's concrete example: removing MSFT from
[AAPL, MSFT, TSLA] redraws the table and clears exactly one trailing
row (row 7 = 3+4); the header stays because two tickers remain. -/
theorem remove_commit_clears_trailing_rows_witness :
    (execute edC5).2
      = [ScreenOp.drawQuotes ["AAPL".toList, "TSLA".toList],
         ScreenOp.clearLine 0 7] := by
  have h := remove_commit_clears_trailing_rows edC5 rfl (by decide) (by decide)
  exact h.1.trans (by decide)

/-- C2 counterexample: after a failed fetch — a network error or a
decode error (14-entry result array) — `Ok` reports the market as
*healthy* with an empty message, not as unhealthy. -/
theorem fetch_failure_reports_healthy_counterexample :
    Ok (Fetch mInit FetchOutcome.networkError) = (true, "")
    ∧ Ok (Fetch mInit (FetchOutcome.decoded (mkBody (sampleResults 14)))) = (true, "")
    ∧ (Ok (Fetch mInit FetchOutcome.networkError)).1 ≠ false := by
  decide

/-- C2 (amended): every failed fetch (request, network, read or decode
failure) sets `errors` to the *empty* string — the recovery handler
deliberately suppresses the message ("Don't pollute the screen") — so
`Ok` afterwards reports `(true, "")`: healthy with an empty message,
never the unhealthy state the spec sentence describes. -/
theorem fetch_failure_sets_empty_error (m : Market) (o : FetchOutcome)
    (h : FetchFails m o) :
    (Fetch m o).errors = "" ∧ Ok (Fetch m o) = (true, "") := by
  cases o with
  | requestError => exact ⟨rfl, rfl⟩
  | networkError => exact ⟨rfl, rfl⟩
  | readError => exact ⟨rfl, rfl⟩
  | badBody => exact ⟨rfl, rfl⟩
  | decoded d =>
    simp only [FetchFails] at h
    simp only [Fetch, h]
    exact ⟨rfl, rfl⟩

/-- Witness for C2 (amended) at a concrete failing outcome. -/
theorem fetch_failure_sets_empty_error_witness :
    (Fetch mInit FetchOutcome.networkError).errors = ""
    ∧ Ok (Fetch mInit FetchOutcome.networkError) = (true, "") :=
  fetch_failure_sets_empty_error mInit FetchOutcome.networkError trivial

/-- C8 (code bug): after a successful decode of a well-formed 15-entry
result array, the Yield hash has no `name` key at all — line 221 sets
the label on the old hash and line 222 immediately replaces the whole
hash with `assign(results, 12)`, so the store is dead.  The third
conjunct shows the intended label write alone would have produced it. -/
theorem yield_name_label_dropped :
    (extract mInit (sampleResults 15)).2 = false
    ∧ hashGet ((extract mInit (sampleResults 15)).1.Yield) "name" = none
    ∧ hashGet (hashSet mInit.Yield "name" "10-year Yield") "name" = some "10-year Yield" := by
  decide

/-- `assign` panics (returns `none`) when the position is past the end
of the result array. -/
lemma assign_none_of_len_le (results : List RawQuote) (pos : Nat) (b : Bool)
    (h : results.length ≤ pos) : assign results pos b = none := by
  have hnone : results[pos]? = none := List.getElem?_eq_none h
  simp [assign, hnone]

/-- `assign` succeeds on any in-range position of a well-formed result
array. -/
lemma assign_isSome_of (results : List RawQuote) (pos : Nat)
    (hpos : pos < results.length)
    (hwf : ∀ q ∈ results, hasQuoteFields q = true) :
    (assign results pos false).isSome = true := by
  have he : results[pos]? = some results[pos] := List.getElem?_eq_getElem hpos
  have hmem : results[pos] ∈ results := List.getElem_mem hpos
  have hq := hwf _ hmem
  simp only [hasQuoteFields, Bool.and_eq_true] at hq
  obtain ⟨⟨h1, h2⟩, h3⟩ := hq
  obtain ⟨v1, hv1⟩ := Option.isSome_iff_exists.mp h1
  obtain ⟨v2, hv2⟩ := Option.isSome_iff_exists.mp h2
  obtain ⟨v3, hv3⟩ := Option.isSome_iff_exists.mp h3
  simp [assign, he, hv1, hv2, hv3]

/-- The decoded body really carries the given result array. -/
lemma resultsOf_mkBody (results : List RawQuote) :
    resultsOf (mkBody results) = results := rfl

/-- C1 counterexample: a well-formed 14-entry result array makes the
fetch fail as a whole, yet the snapshot is *not* left as it was — the
Dow slot (among others) is overwritten before the panic at position 14. -/
theorem fetch_short_result_not_atomic :
    (extract mPrev (sampleResults 14)).2 = true
    ∧ (Fetch mPrev (FetchOutcome.decoded (mkBody (sampleResults 14)))).Dow ≠ mPrev.Dow := by
  decide

/-- C1 (amended): on a well-formed 14-entry result array the decode
fails as a whole (the panic is recovered and `errors` is reset to the
empty string), but the update is *not* atomic: the fourteen slots Dow
through Silver are overwritten with the values decoded from positions
0-13, and only Gold — whose `assign` call is the one that panics — keeps
its prior value. -/
theorem extract_len14_slotwise_update (m : Market) (results : List RawQuote)
    (hlen : results.length = 14)
    (hwf : ∀ q ∈ results, hasQuoteFields q = true) :
    (extract m results).2 = true
    ∧ (Fetch m (FetchOutcome.decoded (mkBody results))).errors = ""
    ∧ (∀ i, i < 14 → (assign results i false).isSome = true)
    ∧ assign results 14 false = none
    ∧ (extract m results).1.Dow = (assign results 0 false).getD []
    ∧ (extract m results).1.Nasdaq = (assign results 1 false).getD []
    ∧ (extract m results).1.Sp500 = (assign results 2 false).getD []
    ∧ (extract m results).1.Btc = (assign results 3 false).getD []
    ∧ (extract m results).1.Tokyo = (assign results 4 false).getD []
    ∧ (extract m results).1.HongKong = (assign results 5 false).getD []
    ∧ (extract m results).1.London = (assign results 6 false).getD []
    ∧ (extract m results).1.Frankfurt = (assign results 7 false).getD []
    ∧ (extract m results).1.Yen = (assign results 8 false).getD []
    ∧ (extract m results).1.Rub = (assign results 9 false).getD []
    ∧ (extract m results).1.Gbp = (assign results 10 false).getD []
    ∧ (extract m results).1.Euro = (assign results 11 false).getD []
    ∧ (extract m results).1.Yield = (assign results 12 false).getD []
    ∧ (extract m results).1.Silver = (assign results 13 false).getD []
    ∧ (extract m results).1.Gold = m.Gold := by
  have h14 : assign results 14 false = none :=
    assign_none_of_len_le results 14 false (by omega)
  have hs : ∀ i, i < 14 → (assign results i false).isSome = true :=
    fun i hi => assign_isSome_of results i (by omega) hwf
  obtain ⟨q0, hq0⟩ := Option.isSome_iff_exists.mp (hs 0 (by omega))
  obtain ⟨q1, hq1⟩ := Option.isSome_iff_exists.mp (hs 1 (by omega))
  obtain ⟨q2, hq2⟩ := Option.isSome_iff_exists.mp (hs 2 (by omega))
  obtain ⟨q3, hq3⟩ := Option.isSome_iff_exists.mp (hs 3 (by omega))
  obtain ⟨q4, hq4⟩ := Option.isSome_iff_exists.mp (hs 4 (by omega))
  obtain ⟨q5, hq5⟩ := Option.isSome_iff_exists.mp (hs 5 (by omega))
  obtain ⟨q6, hq6⟩ := Option.isSome_iff_exists.mp (hs 6 (by omega))
  obtain ⟨q7, hq7⟩ := Option.isSome_iff_exists.mp (hs 7 (by omega))
  obtain ⟨q8, hq8⟩ := Option.isSome_iff_exists.mp (hs 8 (by omega))
  obtain ⟨q9, hq9⟩ := Option.isSome_iff_exists.mp (hs 9 (by omega))
  obtain ⟨q10, hq10⟩ := Option.isSome_iff_exists.mp (hs 10 (by omega))
  obtain ⟨q11, hq11⟩ := Option.isSome_iff_exists.mp (hs 11 (by omega))
  obtain ⟨q12, hq12⟩ := Option.isSome_iff_exists.mp (hs 12 (by omega))
  obtain ⟨q13, hq13⟩ := Option.isSome_iff_exists.mp (hs 13 (by omega))
  have hpair : extract m results
      = (Prod.mk
          { m with
              Dow := q0, Nasdaq := q1, Sp500 := q2, Btc := q3, Tokyo := q4
              HongKong := q5, London := q6, Frankfurt := q7, Yen := q8, Rub := q9
              Gbp := q10, Euro := q11, Yield := q12, Silver := q13 }
          true) := by
    simp only [extract, hq0, hq1, hq2, hq3, hq4, hq5, hq6, hq7, hq8, hq9,
      hq10, hq11, hq12, hq13, h14]
  refine ⟨by simp only [hpair], ?_, hs, h14,
    by simp only [hpair, hq0, Option.getD_some], by simp only [hpair, hq1, Option.getD_some],
    by simp only [hpair, hq2, Option.getD_some], by simp only [hpair, hq3, Option.getD_some],
    by simp only [hpair, hq4, Option.getD_some], by simp only [hpair, hq5, Option.getD_some],
    by simp only [hpair, hq6, Option.getD_some], by simp only [hpair, hq7, Option.getD_some],
    by simp only [hpair, hq8, Option.getD_some], by simp only [hpair, hq9, Option.getD_some],
    by simp only [hpair, hq10, Option.getD_some], by simp only [hpair, hq11, Option.getD_some],
    by simp only [hpair, hq12, Option.getD_some], by simp only [hpair, hq13, Option.getD_some],
    by simp only [hpair]⟩
  simp only [Fetch, resultsOf_mkBody, hpair, if_true]

/-- Witness for C1 (amended) at a concrete prior market and 14-entry
array: the fetch fails, Dow is overwritten with position 0's data, Gold
keeps its stale value. -/
theorem extract_len14_slotwise_update_witness :
    (extract mPrev (sampleResults 14)).2 = true
    ∧ (extract mPrev (sampleResults 14)).1.Dow
        = [("change", "0"), ("latest", "0"), ("percent", "0%")]
    ∧ (extract mPrev (sampleResults 14)).1.Gold = [("latest", "OLDGOLD")] := by
  have h := extract_len14_slotwise_update mPrev (sampleResults 14) (by decide) (by decide)
  obtain ⟨h1, h2, h3, h4, hDow, hN, hSp, hB, hT, hH, hL, hF, hYen, hR, hG, hE,
    hY, hSil, hGold⟩ := h
  exact ⟨h1, hDow.trans (by decide), hGold.trans (by decide)⟩

/-- C9: a successfully decoded 15-entry result array is mapped by fixed
position — position i feeds the i-th slot in the order Dow, Nasdaq,
S&P500, Bitcoin, Tokyo, Hong Kong, London, Frankfurt, Yen, Ruble, Pound,
Euro, 10-Year-Yield, Silver, Gold — with no symbol lookup involved. -/
theorem extract_fixed_position_mapping (m : Market) (results : List RawQuote)
    (hlen : results.length = 15)
    (hwf : ∀ q ∈ results, hasQuoteFields q = true) :
    (extract m results).2 = false
    ∧ (∀ i, i < 15 → (assign results i false).isSome = true)
    ∧ (extract m results).1.Dow = (assign results 0 false).getD []
    ∧ (extract m results).1.Nasdaq = (assign results 1 false).getD []
    ∧ (extract m results).1.Sp500 = (assign results 2 false).getD []
    ∧ (extract m results).1.Btc = (assign results 3 false).getD []
    ∧ (extract m results).1.Tokyo = (assign results 4 false).getD []
    ∧ (extract m results).1.HongKong = (assign results 5 false).getD []
    ∧ (extract m results).1.London = (assign results 6 false).getD []
    ∧ (extract m results).1.Frankfurt = (assign results 7 false).getD []
    ∧ (extract m results).1.Yen = (assign results 8 false).getD []
    ∧ (extract m results).1.Rub = (assign results 9 false).getD []
    ∧ (extract m results).1.Gbp = (assign results 10 false).getD []
    ∧ (extract m results).1.Euro = (assign results 11 false).getD []
    ∧ (extract m results).1.Yield = (assign results 12 false).getD []
    ∧ (extract m results).1.Silver = (assign results 13 false).getD []
    ∧ (extract m results).1.Gold = (assign results 14 false).getD [] := by
  have hs : ∀ i, i < 15 → (assign results i false).isSome = true :=
    fun i hi => assign_isSome_of results i (by omega) hwf
  obtain ⟨q0, hq0⟩ := Option.isSome_iff_exists.mp (hs 0 (by omega))
  obtain ⟨q1, hq1⟩ := Option.isSome_iff_exists.mp (hs 1 (by omega))
  obtain ⟨q2, hq2⟩ := Option.isSome_iff_exists.mp (hs 2 (by omega))
  obtain ⟨q3, hq3⟩ := Option.isSome_iff_exists.mp (hs 3 (by omega))
  obtain ⟨q4, hq4⟩ := Option.isSome_iff_exists.mp (hs 4 (by omega))
  obtain ⟨q5, hq5⟩ := Option.isSome_iff_exists.mp (hs 5 (by omega))
  obtain ⟨q6, hq6⟩ := Option.isSome_iff_exists.mp (hs 6 (by omega))
  obtain ⟨q7, hq7⟩ := Option.isSome_iff_exists.mp (hs 7 (by omega))
  obtain ⟨q8, hq8⟩ := Option.isSome_iff_exists.mp (hs 8 (by omega))
  obtain ⟨q9, hq9⟩ := Option.isSome_iff_exists.mp (hs 9 (by omega))
  obtain ⟨q10, hq10⟩ := Option.isSome_iff_exists.mp (hs 10 (by omega))
  obtain ⟨q11, hq11⟩ := Option.isSome_iff_exists.mp (hs 11 (by omega))
  obtain ⟨q12, hq12⟩ := Option.isSome_iff_exists.mp (hs 12 (by omega))
  obtain ⟨q13, hq13⟩ := Option.isSome_iff_exists.mp (hs 13 (by omega))
  obtain ⟨q14, hq14⟩ := Option.isSome_iff_exists.mp (hs 14 (by omega))
  have hpair : extract m results
      = (Prod.mk
          { m with
              Dow := q0, Nasdaq := q1, Sp500 := q2, Btc := q3, Tokyo := q4
              HongKong := q5, London := q6, Frankfurt := q7, Yen := q8, Rub := q9
              Gbp := q10, Euro := q11, Yield := q12, Silver := q13, Gold := q14 }
          false) := by
    simp only [extract, hq0, hq1, hq2, hq3, hq4, hq5, hq6, hq7, hq8, hq9,
      hq10, hq11, hq12, hq13, hq14]
  exact ⟨by simp only [hpair], hs,
    by simp only [hpair, hq0, Option.getD_some], by simp only [hpair, hq1, Option.getD_some],
    by simp only [hpair, hq2, Option.getD_some], by simp only [hpair, hq3, Option.getD_some],
    by simp only [hpair, hq4, Option.getD_some], by simp only [hpair, hq5, Option.getD_some],
    by simp only [hpair, hq6, Option.getD_some], by simp only [hpair, hq7, Option.getD_some],
    by simp only [hpair, hq8, Option.getD_some], by simp only [hpair, hq9, Option.getD_some],
    by simp only [hpair, hq10, Option.getD_some], by simp only [hpair, hq11, Option.getD_some],
    by simp only [hpair, hq12, Option.getD_some], by simp only [hpair, hq13, Option.getD_some],
    by simp only [hpair, hq14, Option.getD_some]⟩

/-- Witness for C9 at a concrete 15-entry array (entry i carries the
value i): position 0 lands in Dow, position 8 in Yen, position 14 in
Gold. -/
theorem extract_fixed_position_mapping_witness :
    (extract mInit (sampleResults 15)).2 = false
    ∧ (extract mInit (sampleResults 15)).1.Dow
        = [("change", "0"), ("latest", "0"), ("percent", "0%")]
    ∧ (extract mInit (sampleResults 15)).1.Yen
        = [("change", "8"), ("latest", "8"), ("percent", "8%")]
    ∧ (extract mInit (sampleResults 15)).1.Gold
        = [("change", "14"), ("latest", "14"), ("percent", "14%")] := by
  have h := extract_fixed_position_mapping mInit (sampleResults 15) (by decide) (by decide)
  obtain ⟨h1, h2, hDow, hN, hSp, hB, hT, hH, hL, hF, hYen, hR, hG, hE,
    hY, hSil, hGold⟩ := h
  exact ⟨h1, hDow.trans (by decide), hYen.trans (by decide), hGold.trans (by decide)⟩

end Mop
